import Mathlib

/-!
Verification of the best-configuration selector scripts of `pcbench`
(`best_postgresql_config_finder.py`, `best_nginx_config_finder.py`,
`best_redisconfig_finder.py`) against their natural-language specification.

The development shallowly embeds the pipelines at several levels:

* a character-level model of the postgres/nginx config decode step
  (`best_row["Config"].replace("'", '"')` followed by `json.loads`,
  the latter modelled on the flat-object grammar those config fields use:
  an object whose values are integers or strings);
* a line-level model of `pd.read_csv(path, skiprows=range(1, 11))`;
* a dataframe-level model of `load_candidates`, `gather_all_rows` and the
  two `main` functions (maximum selection via `Series.idxmax`, which
  returns the first occurrence of the maximum);
* a model of the redis variant: `load_csv`, `pick_best`
  (max-Budget filter, `pd.to_numeric(..., errors="coerce")`,
  descending sort of absolute reported values with NaN last,
  decode walk, `idxmax` fallback) and `sanitize_config_str`
  (the `np.str_` rewrite, `ast.literal_eval`, and the restricted
  fallback evaluation whose only resolvable names are
  `int`, `float`, `str`, `bool`).
-/

/-- The single-quote character, written via its code point. -/
def sqChar : Char := Char.ofNat 39

/-- The double-quote character. -/
def dqChar : Char := Char.ofNat 34

/-- The backslash character. -/
def bslChar : Char := Char.ofNat 92

/-- The opening-brace character. -/
def lbChar : Char := Char.ofNat 123

/-- The closing-brace character. -/
def rbChar : Char := Char.ofNat 125

/-- Decimal digit characters, used to print integer scalars. -/
def digitChar : Nat → Char
  | 0 => '0'
  | 1 => '1'
  | 2 => '2'
  | 3 => '3'
  | 4 => '4'
  | 5 => '5'
  | 6 => '6'
  | 7 => '7'
  | 8 => '8'
  | 9 => '9'
  | _ => '0'

/-- The decimal digits of a natural number, most significant first; the
fuel argument makes the recursion structural, and `natDigits` supplies
enough fuel for it never to run out. -/
def natDigitsAux : Nat → Nat → List Char
  | 0, _ => []
  | fuel + 1, n =>
    if n < 10 then [digitChar n]
    else natDigitsAux fuel (n / 10) ++ [digitChar (n % 10)]

/-- The decimal digits of a natural number, most significant first. -/
def natDigits (n : Nat) : List Char :=
  natDigitsAux (n + 1) n

/-- Decimal rendering of an integer, with a leading minus sign if negative. -/
def intChars (n : Int) : List Char :=
  if n < 0 then '-' :: natDigits n.natAbs else natDigits n.natAbs

/-- JSON values produced by the (modelled) `json.loads` on the flat config
objects these scripts decode: integers and strings. -/
inductive JVal where
  | int : Int → JVal
  | str : String → JVal
deriving DecidableEq, Repr

/-- Scalars of the single-quoted Python dict texts stored in the `Config`
column: integers, single-quoted strings, and Python booleans. -/
inductive SqScalar where
  | int : Int → SqScalar
  | str : String → SqScalar
  | bool : Bool → SqScalar
deriving DecidableEq, Repr

/-- Rendering of one scalar in the single-quoted dict notation. -/
def renderScalar : SqScalar → List Char
  | .int n => intChars n
  | .str s => sqChar :: s.data ++ [sqChar]
  | .bool b => if b then [Char.ofNat 84, 'r', 'u', 'e'] else [Char.ofNat 70, 'a', 'l', 's', 'e']

/-- Rendering of one key/value pair of the single-quoted dict notation. -/
def pairChars (k : String) (v : SqScalar) : List Char :=
  sqChar :: k.data ++ sqChar :: ':' :: ' ' :: renderScalar v

/-- Rendering of the comma-separated pair list of the dict notation. -/
def joinPairs : List (String × SqScalar) → List Char
  | [] => []
  | [p] => pairChars p.1 p.2
  | p :: q :: rest => pairChars p.1 p.2 ++ ',' :: ' ' :: joinPairs (q :: rest)

/-- A well-formed single-quoted dict text: the rendering of an association
list of string keys and scalar values, in the notation Python `repr` uses
for such dicts. -/
def renderPyDict (d : List (String × SqScalar)) : String :=
  String.mk (lbChar :: joinPairs d ++ [rbChar])

/-- One step of `str.replace("'", '"')`: swap each single quote for a
double quote, leaving every other character unchanged. -/
def quoteSwap (c : Char) : Char :=
  if c = sqChar then dqChar else c

/-- Model of `best_row["Config"].replace("'", '"')`. -/
def replaceQuotes (s : String) : String :=
  String.mk (s.data.map quoteSwap)

/-- Consume leading spaces, as `json.loads` does between tokens. -/
def skipWs : List Char → List Char
  | [] => []
  | c :: cs => if c = ' ' then skipWs cs else c :: cs

/-- Parse the body of a JSON string after its opening double quote: read
characters up to the closing quote.  Escapes are not part of the grammar
exercised by these config fields, so a backslash is rejected. -/
def parseStrBody : List Char → Option (List Char × List Char)
  | [] => none
  | c :: cs =>
    if c = dqChar then some ([], cs)
    else if c = bslChar then none
    else (parseStrBody cs).map (fun p => (c :: p.1, p.2))

/-- Whether a character is a decimal digit. -/
def isDigitChar (c : Char) : Bool :=
  decide (48 ≤ c.toNat ∧ c.toNat ≤ 57)

/-- Consume a maximal run of decimal digits, accumulating their value. -/
def parseDigits : Nat → List Char → Nat × List Char
  | acc, [] => (acc, [])
  | acc, c :: cs =>
    if isDigitChar c then parseDigits (acc * 10 + (c.toNat - 48)) cs
    else (acc, c :: cs)

/-- Parse one JSON scalar value (string or integer) of the config grammar. -/
def parseJVal : List Char → Option (JVal × List Char)
  | [] => none
  | c :: cs =>
    if c = dqChar then
      (parseStrBody cs).map (fun p => (JVal.str (String.mk p.1), p.2))
    else if c = '-' then
      if ((cs.head?.map isDigitChar).getD false) then
        let p := parseDigits 0 cs
        some (JVal.int (-(p.1 : Int)), p.2)
      else none
    else if isDigitChar c then
      let p := parseDigits 0 (c :: cs)
      some (JVal.int (p.1 : Int), p.2)
    else none

/-- Parse the pair list of a JSON object, up to and including the closing
brace.  The fuel argument bounds the number of pairs; callers pass the
input length, which always suffices. -/
def parsePairsAux : Nat → List Char → Option (List (String × JVal) × List Char)
  | 0, _ => none
  | fuel + 1, cs =>
    match skipWs cs with
    | [] => none
    | c :: cs1 =>
      if c = dqChar then
        match parseStrBody cs1 with
        | none => none
        | some (k, cs2) =>
          match skipWs cs2 with
          | [] => none
          | c2 :: cs3 =>
            if c2 = ':' then
              match parseJVal (skipWs cs3) with
              | none => none
              | some (v, cs4) =>
                match skipWs cs4 with
                | [] => none
                | c3 :: cs5 =>
                  if c3 = ',' then
                    match parsePairsAux fuel cs5 with
                    | none => none
                    | some (ps, rest) => some ((String.mk k, v) :: ps, rest)
                  else if c3 = rbChar then some ([(String.mk k, v)], cs5)
                  else none
            else none
      else none

/-- Model of `json.loads` on the flat-object grammar of these config
fields: a brace-delimited object of string keys and scalar values, with
nothing but whitespace allowed after the closing brace. -/
def jsonParseChars (cs : List Char) : Option (List (String × JVal)) :=
  match skipWs cs with
  | [] => none
  | c :: cs1 =>
    if c = lbChar then
      match skipWs cs1 with
      | [] => none
      | c2 :: cs2 =>
        if c2 = rbChar then
          if skipWs cs2 = [] then some [] else none
        else
          match parsePairsAux (cs1.length + 1) cs1 with
          | none => none
          | some (ps, rest) => if skipWs rest = [] then some ps else none
    else none

/-- The postgres/nginx decode of a `Config` cell:
`json.loads(config.replace("'", '"'))`. -/
def pgDecode (s : String) : Option (List (String × JVal)) :=
  jsonParseChars (replaceQuotes s).data

/-- Key order used by `json.dump(..., sort_keys=True)`. -/
def keyLe {β : Type} (a b : String × β) : Prop :=
  a.1 ≤ b.1

instance {β : Type} : DecidableRel (keyLe (β := β)) :=
  fun a b => inferInstanceAs (Decidable (a.1 ≤ b.1))

instance {β : Type} : IsTotal (String × β) keyLe :=
  ⟨fun a b => le_total a.1 b.1⟩

instance {β : Type} : IsTrans (String × β) keyLe :=
  ⟨fun _ _ _ hab hbc => le_trans hab hbc⟩

/-- Model of `json.dump(cfg, fh, indent=2, sort_keys=True)`: the mapping is
written with its entries ordered by key. -/
def writeJsonSorted {β : Type} (m : List (String × β)) : List (String × β) :=
  List.insertionSort keyLe m

/-- The numeric value of a digit run, folded left with an accumulator, as
`parseDigits` computes it. -/
def digitsVal (acc : Nat) (ds : List Char) : Nat :=
  ds.foldl (fun a c => a * 10 + (c.toNat - 48)) acc

/-- A string whose characters survive the quote replacement and the
escape-free string grammar: no single quote, double quote, or backslash. -/
def goodStr (s : String) : Prop :=
  ∀ c ∈ s.data, c ≠ sqChar ∧ c ≠ dqChar ∧ c ≠ bslChar

/-- Scalars whose rendered text `json.loads` accepts after the quote
replacement: integers, and quote-free strings; Python booleans render as
`True`/`False`, which JSON rejects. -/
def goodVal : SqScalar → Prop
  | .int _ => True
  | .str s => goodStr s
  | .bool _ => False

/-- A dict entry within the round-trippable fragment. -/
def goodPair (p : String × SqScalar) : Prop :=
  goodStr p.1 ∧ goodVal p.2

instance (s : String) : Decidable (goodStr s) :=
  List.decidableBAll _ s.data

instance : (v : SqScalar) → Decidable (goodVal v)
  | .int _ => isTrue trivial
  | .str s => inferInstanceAs (Decidable (goodStr s))
  | .bool _ => isFalse (fun h => h)

instance (p : String × SqScalar) : Decidable (goodPair p) :=
  inferInstanceAs (Decidable (goodStr p.1 ∧ goodVal p.2))

/-- The JSON value denoted by a Python scalar (booleans fall outside the
round-trippable fragment; their image is never used under `goodVal`). -/
def jOfScalar : SqScalar → JVal
  | .int n => .int n
  | .str s => .str s
  | .bool _ => .int 0

/-- One result row of the postgres/nginx dataframes, after `pd.read_csv`:
the `Worker` (fidelity) and `Performance` columns as numbers, and the
`Config` column as text. -/
structure Row where
  worker : ℚ
  performance : ℚ
  config : String
deriving DecidableEq, Repr

/-- One parsed input CSV at dataframe level: whether the required `Worker`
and `Performance` columns are present, and the data rows. -/
structure Table where
  hasWorker : Bool
  hasPerformance : Bool
  rows : List Row
deriving DecidableEq, Repr

/-- The fidelity filter `df[df["Worker"] >= thr]`, with the threshold as a
parameter; both scripts instantiate it at 9. -/
def filter_by_fidelity (thr : ℚ) (rows : List Row) : List Row :=
  rows.filter (fun r => decide (thr ≤ r.worker))

/-- `load_candidates` of the postgres and nginx scripts: an unreadable file
or one missing the `Worker`/`Performance` columns contributes an empty
dataframe (with a warning); otherwise the rows with `Worker >= 9` are kept. -/
def load_candidates (t : Table) : List Row :=
  if t.hasWorker ∧ t.hasPerformance then filter_by_fidelity 9 t.rows else []

/-- `gather_all_rows` / the `pd.concat` over `load_candidates` of every
input file, in file order. -/
def gather_all_rows (files : List Table) : List Row :=
  (files.map load_candidates).flatten

/-- `Series.idxmax` semantics: the first element attaining the maximum of
`f`, scanning left to right. -/
def argmaxFirst {α : Type} (f : α → ℚ) : List α → Option α
  | [] => none
  | a :: t =>
    match argmaxFirst f t with
    | none => some a
    | some b => if f a < f b then some b else some a

/-- The terminal failure states of the postgres/nginx `main`. -/
inductive PgErr where
  /-- `sys.exit` because the glob matched no input file. -/
  | noFiles
  /-- `sys.exit` because no row passed the fidelity filter. -/
  | emptyPool
  /-- the uncaught `json.JSONDecodeError` of the strict (postgres) variant. -/
  | decodeError
deriving DecidableEq, Repr

/-- The observable output of a successful postgres/nginx run: the sorted
JSON mapping written to the output file and the summary values printed. -/
structure PgOutput where
  json : List (String × JVal)
  summaryWorker : ℚ
  summaryPerformance : ℚ
deriving DecidableEq, Repr

/-- `main` of the postgres (strict) variant: exit if there are no input
files; pool the filtered rows; exit if the pool is empty; select the first
row attaining the maximum `Performance`; decode its `Config`, an uncaught
exception if the decode fails; write the key-sorted JSON mapping. -/
def pgMain (files : List Table) : Except PgErr PgOutput :=
  match files with
  | [] => .error .noFiles
  | _ :: _ =>
    let pool := gather_all_rows files
    match argmaxFirst (fun r => r.performance) pool with
    | none => .error .emptyPool
    | some best =>
      match pgDecode best.config with
      | none => .error .decodeError
      | some m => .ok ⟨writeJsonSorted m, best.worker, best.performance⟩

/-- `main` of the nginx (tolerant) variant: identical to the postgres one
except that a failed decode is caught and the run still succeeds, writing
the degraded mapping with the raw config text under the `raw_config` key. -/
def nginxMain (files : List Table) : Except PgErr PgOutput :=
  match files with
  | [] => .error .noFiles
  | _ :: _ =>
    let pool := gather_all_rows files
    match argmaxFirst (fun r => r.performance) pool with
    | none => .error .emptyPool
    | some best =>
      match pgDecode best.config with
      | none =>
        .ok ⟨writeJsonSorted [("raw_config", JVal.str best.config)],
             best.worker, best.performance⟩
      | some m => .ok ⟨writeJsonSorted m, best.worker, best.performance⟩

/-- Line-level model of `pd.read_csv(path, skiprows=range(1, 11))`, shared
by the postgres and nginx loaders: file lines 1 through 10 (0-indexed) are
skipped, so the header is read from line 0 and the data starts at line 11.
An empty file is a parse error (`pandas.errors.EmptyDataError`). -/
def read_csv_skiprows_1_to_10 (lines : List (List String)) :
    Option (List String × List (List String)) :=
  match lines with
  | [] => none
  | header :: rest => some (header, rest.drop 10)

/-- Modelled from the spec: the claimed reading of the loader, under which
a 10-row preamble of leading rows is skipped before the header row itself
is interpreted. -/
def read_csv_skip_preamble_spec (lines : List (List String)) :
    Option (List String × List (List String)) :=
  match lines.drop 10 with
  | [] => none
  | header :: rest => some (header, rest)

/-- Python scalar values occurring in the redis `CleanConfig` dicts. -/
inductive PyVal where
  | int : Int → PyVal
  | float : ℚ → PyVal
  | str : String → PyVal
  | bool : Bool → PyVal
deriving DecidableEq, Repr

/-- One value expression of a `CleanConfig` dict text, as the grammar the
sanitizer handles: a plain literal, the numpy string wrapper
`np.str_(...)`, or a one-argument constructor call `name(literal)`. -/
inductive CExpr where
  | lit : PyVal → CExpr
  | npStr : String → CExpr
  | call : String → PyVal → CExpr
deriving DecidableEq, Repr

/-- A `CleanConfig` cell: either a dict text over the grammar above, or
text that neither evaluation step can parse (a syntax error for both). -/
inductive CfgText where
  | dict : List (String × CExpr) → CfgText
  | malformed : String → CfgText
deriving DecidableEq, Repr

/-- Whether a character is ASCII whitespace, as Python `str.strip()`
removes. -/
def isPySpace (c : Char) : Bool :=
  decide (c = ' ' ∨ c = Char.ofNat 9 ∨ c = Char.ofNat 10 ∨ c = Char.ofNat 13)

/-- Python `str.strip()`: drop leading and trailing whitespace. -/
def pyStrip (s : String) : String :=
  String.mk (((s.data.dropWhile isPySpace).reverse.dropWhile isPySpace).reverse)

/-- The regex rewrite `np.str_('foo') -> 'foo'` applied by
`sanitize_config_str` before any parsing. -/
def stripNpStr : CExpr → CExpr
  | .npStr s => .lit (.str s)
  | e => e

/-- `ast.literal_eval` on one value expression: succeeds exactly on plain
literals, and rejects any function call. -/
def litVal : CExpr → Option PyVal
  | .lit v => some v
  | _ => none

/-- `ast.literal_eval` on the whole dict text: every value must be a plain
literal, otherwise the whole parse raises. -/
def literalEvalDict : List (String × CExpr) → Option (List (String × PyVal))
  | [] => some []
  | p :: ps =>
    match litVal p.2, literalEvalDict ps with
    | some v, some d => some ((p.1, v) :: d)
    | _, _ => none

/-- Python truthiness, the semantics of the `bool` constructor. -/
def pyTruthy : PyVal → Bool
  | .int n => decide (n ≠ 0)
  | .float q => decide (q ≠ 0)
  | .str s => decide (s ≠ "")
  | .bool b => b

/-- Python `str()` of a scalar.  The float case is an approximate decimal
rendering; no theorem below depends on it. -/
def pyStrRepr : PyVal → String
  | .int n => toString n
  | .float q => toString q
  | .str s => s
  | .bool b => if b then "True" else "False"

/-- Truncation toward zero, the semantics of `int()` on a float. -/
def ratTruncToInt (q : ℚ) : Int :=
  if 0 ≤ q then ⌊q⌋ else ⌈q⌉

/-- The errors the evaluation steps of `sanitize_config_str` can raise. -/
inductive EvalErr where
  /-- a name that is not among the whitelisted constructors (the
  evaluation environment exposes nothing else). -/
  | nameError : String → EvalErr
  /-- a constructor applied to a string it cannot convert. -/
  | valueError
  /-- text that neither evaluation step can parse. -/
  | syntaxError
deriving DecidableEq, Repr

/-- Resolution and application of a constructor name in the restricted
fallback evaluation `eval(s_norm, {"__builtins__": {}}, safe_funcs)` with
`safe_funcs = {"int": int, "float": float, "str": str, "bool": bool}`.
Any other name is unresolvable and raises `NameError`.  The numeric
string parses for `int(...)`/`float(...)` are approximated by
`String.toInt?` on trimmed text; no theorem below depends on them. -/
def callCtor (name : String) (v : PyVal) : Except EvalErr PyVal :=
  if name = "int" then
    match v with
    | .int n => .ok (.int n)
    | .bool b => .ok (.int (if b then 1 else 0))
    | .float q => .ok (.int (ratTruncToInt q))
    | .str s =>
      match (pyStrip s).toInt? with
      | some n => .ok (.int n)
      | none => .error .valueError
  else if name = "float" then
    match v with
    | .int n => .ok (.float n)
    | .bool b => .ok (.float (if b then 1 else 0))
    | .float q => .ok (.float q)
    | .str s =>
      match (pyStrip s).toInt? with
      | some n => .ok (.float n)
      | none => .error .valueError
  else if name = "str" then .ok (.str (pyStrRepr v))
  else if name = "bool" then .ok (.bool (pyTruthy v))
  else .error (.nameError name)

/-- The whitelisted constructor name matching a scalar's own type, used to
state when a constructor call is applied to an argument it leaves
unchanged. -/
def ctorNameOf : PyVal → String
  | .int _ => "int"
  | .float _ => "float"
  | .str _ => "str"
  | .bool _ => "bool"

/-- The restricted fallback evaluation of one value expression: literals
evaluate to themselves, a surviving `np.str_` call would hit the
unresolvable name `np`, and a constructor call resolves through
`safe_funcs` only. -/
def restrictedEvalVal : CExpr → Except EvalErr PyVal
  | .lit v => .ok v
  | .npStr _ => .error (.nameError "np")
  | .call name v => callCtor name v

/-- The restricted fallback evaluation of the whole dict text, failing on
the first value whose evaluation raises. -/
def restrictedEvalDict : List (String × CExpr) → Except EvalErr (List (String × PyVal))
  | [] => .ok []
  | p :: ps =>
    match restrictedEvalVal p.2 with
    | .error e => .error e
    | .ok v =>
      match restrictedEvalDict ps with
      | .error e => .error e
      | .ok d => .ok ((p.1, v) :: d)

/-- `sanitize_config_str`: normalize the `np.str_` wrappers, try
`ast.literal_eval`, fall back to the restricted evaluation, and strip
whitespace from every key of the resulting dict. -/
def sanitize_config_str : CfgText → Except EvalErr (List (String × PyVal))
  | .malformed _ => .error .syntaxError
  | .dict ps =>
    let norm := ps.map (fun p => (p.1, stripNpStr p.2))
    match literalEvalDict norm with
    | some d => .ok (d.map (fun p => (pyStrip p.1, p.2)))
    | none => (restrictedEvalDict norm).map (fun d => d.map (fun p => (pyStrip p.1, p.2)))

/-- Whether an `Except` value is a success, i.e. the guarded call did not
raise. -/
def exceptOk {ε α : Type} : Except ε α → Bool
  | .ok _ => true
  | .error _ => false

instance {ε α : Type} [DecidableEq ε] [DecidableEq α] : DecidableEq (Except ε α) :=
  fun x y =>
    match x, y with
    | .ok a, .ok b =>
      if h : a = b then .isTrue (by rw [h])
      else .isFalse (fun hc => h (Except.ok.inj hc))
    | .error a, .error b =>
      if h : a = b then .isTrue (by rw [h])
      else .isFalse (fun hc => h (Except.error.inj hc))
    | .ok _, .error _ => .isFalse (fun hc => Except.noConfusion hc)
    | .error _, .ok _ => .isFalse (fun hc => Except.noConfusion hc)

/-- A raw CSV cell of the `Reported Value` column: either a number, or
text that `pd.to_numeric(..., errors="coerce")` cannot coerce. -/
inductive CsvCell where
  | num : ℚ → CsvCell
  | text : String → CsvCell
deriving DecidableEq, Repr

/-- `pd.to_numeric(..., errors="coerce")`: numbers pass through and
non-numeric text becomes NaN, modelled as `none`. -/
def toNumericCoerce : CsvCell → Option ℚ
  | .num q => some q
  | .text _ => none

/-- One row of the redis results CSV. -/
structure RRow where
  budget : ℚ
  reported : CsvCell
  cleanConfig : CfgText
deriving DecidableEq, Repr

/-- The sort key of the decode walk: the absolute coerced reported value,
with NaN mapped to bottom so it sorts last in the descending order
(`sort_values(ascending=False)` keeps NaN last). -/
def rvRank (r : RRow) : WithBot ℚ :=
  match toNumericCoerce r.reported with
  | some q => (abs q : ℚ)
  | none => ⊥

/-- The descending comparison on ranks used to order the decode walk. -/
def rankRel (a b : RRow) : Prop :=
  rvRank b ≤ rvRank a

instance : DecidableRel rankRel :=
  fun a b => inferInstanceAs (Decidable (rvRank b ≤ rvRank a))

instance : IsTotal RRow rankRel :=
  ⟨fun a b => (le_total (rvRank b) (rvRank a)).imp id id⟩

instance : IsTrans RRow rankRel :=
  ⟨fun _ _ _ hab hbc => le_trans hbc hab⟩

/-- `candidates["__rv"].abs().sort_values(ascending=False).index`: the
candidate rows ordered by descending absolute reported value, NaN rows
last.  (The pandas sort is not stable across ties; no property proved
below depends on the relative order of tied rows.) -/
def decodeWalkOrder (candidates : List RRow) : List RRow :=
  List.insertionSort rankRel candidates

/-- Whether a row's `CleanConfig` decodes, i.e. `sanitize_config_str`
returns instead of raising. -/
def rowDecodes (r : RRow) : Bool :=
  exceptOk (sanitize_config_str r.cleanConfig)

/-- The terminal failure states of the redis run. -/
inductive RErr where
  /-- `sys.exit` from `load_csv` because required columns are missing. -/
  | missingColumns
  /-- `sys.exit` because the CSV has no rows. -/
  | noRows
  /-- `sys.exit` because no row is at the maximum budget. -/
  | noMaxBudgetRows
  /-- the `ValueError` `idxmax` raises when every candidate rank is NaN. -/
  | argmaxAllNaN
  /-- the uncaught exception when `main` re-runs the sanitizer on the
  picked row and it raises. -/
  | uncaughtEvalError : EvalErr → RErr
deriving DecidableEq, Repr

/-- The fallback `candidates["__rv"].abs().idxmax()`: the first occurrence
of the maximum absolute reported value among the numerically-valued rows;
`idxmax` skips NaN and raises if everything is NaN. -/
def fallbackPick (candidates : List RRow) : Except RErr RRow :=
  match argmaxFirst (fun p => p.2)
      (candidates.filterMap (fun r => (toNumericCoerce r.reported).map (fun q => (r, abs q)))) with
  | some p => .ok p.1
  | none => .error .argmaxAllNaN

/-- The rows of the maximum-budget tier:
`df[df["Budget"] == df["Budget"].max()]`. -/
def maxBudgetCandidates (a : RRow) (t : List RRow) : List RRow :=
  let maxBudget := (t.map (fun r => r.budget)).foldl max a.budget
  (a :: t).filter (fun r => decide (r.budget = maxBudget))

/-- `pick_best`: restrict to the maximum-budget rows, walk them by
descending absolute reported value accepting the first whose
`CleanConfig` parses under `sanitize_config_str`, and if none parses fall
back to the largest-magnitude row regardless of parsability. -/
def pick_best (df : List RRow) : Except RErr RRow :=
  match df with
  | [] => .error .noRows
  | a :: t =>
    match maxBudgetCandidates a t with
    | [] => .error .noMaxBudgetRows
    | c :: cs =>
      match (decodeWalkOrder (c :: cs)).find? rowDecodes with
      | some r => .ok r
      | none => fallbackPick (c :: cs)

/-- The redis results table at dataframe level: presence flags for the
required columns and the data rows. -/
structure RTable where
  hasCleanConfig : Bool
  hasBudget : Bool
  hasReportedValue : Bool
  rows : List RRow
deriving DecidableEq, Repr

/-- `load_csv` of the redis script: `sys.exit` (fatal) when any of the
required `CleanConfig`/`Budget`/`Reported Value` columns is missing. -/
def load_csv (t : RTable) : Except RErr (List RRow) :=
  if t.hasCleanConfig ∧ t.hasBudget ∧ t.hasReportedValue then .ok t.rows
  else .error .missingColumns

/-- The observable output of a successful redis run: the decoded mapping
(written key-sorted as JSON and as the conf file) and the summary values. -/
structure RedisOutput where
  json : List (String × PyVal)
  summaryBudget : ℚ
  summaryReported : CsvCell
deriving DecidableEq, Repr

/-- `main` of the redis script: load the CSV (fatal on missing columns),
pick the best row, then decode its `CleanConfig` again with
`sanitize_config_str` outside any handler — if that decode raises, the
exception escapes `main` and the run dies before writing any output. -/
def redisMain (t : RTable) : Except RErr RedisOutput :=
  match load_csv t with
  | .error e => .error e
  | .ok df =>
    match pick_best df with
    | .error e => .error e
    | .ok best =>
      match sanitize_config_str best.cleanConfig with
      | .error e => .error (.uncaughtEvalError e)
      | .ok cfg => .ok ⟨writeJsonSorted cfg, best.budget, best.reported⟩

/-! ### Helper lemmas -/

theorem argmaxFirst_spec {α : Type} (f : α → ℚ) :
    ∀ l : List α, l ≠ [] →
      ∃ r i, argmaxFirst f l = some r ∧ l.get? i = some r ∧
        (∀ y ∈ l, f y ≤ f r) ∧
        (∀ j, j < i → ∀ y, l.get? j = some y → f y < f r) := by
  intro l
  induction l with
  | nil => intro h; exact absurd rfl h
  | cons a t ih =>
    intro _
    match t, ih with
    | [], _ =>
      refine ⟨a, 0, rfl, rfl, ?_, ?_⟩
      · intro y hy
        rw [List.mem_singleton] at hy
        exact le_of_eq (by rw [hy])
      · intro j hj
        exact absurd hj (Nat.not_lt_zero j)
    | b :: t2, ih =>
      obtain ⟨r, i, h1, h2, h3, h4⟩ := ih (List.cons_ne_nil b t2)
      have hstep : argmaxFirst f (a :: b :: t2) =
          if f a < f r then some r else some a := by
        rw [argmaxFirst, h1]
      by_cases hc : f a < f r
      · refine ⟨r, i + 1, by rw [hstep, if_pos hc], by simpa using h2, ?_, ?_⟩
        · intro y hy
          rcases List.mem_cons.mp hy with hy | hy
          · exact le_of_lt (hy ▸ hc)
          · exact h3 y hy
        · intro j hj y hyj
          match j, hyj with
          | 0, hyj =>
            rw [List.get?_cons_zero] at hyj
            cases hyj
            exact hc
          | j' + 1, hyj =>
            rw [List.get?_cons_succ] at hyj
            exact h4 j' (Nat.lt_of_succ_lt_succ hj) y hyj
      · push_neg at hc
        refine ⟨a, 0, by rw [hstep, if_neg (not_lt.mpr hc)], rfl, ?_, ?_⟩
        · intro y hy
          rcases List.mem_cons.mp hy with hy | hy
          · exact le_of_eq (by rw [hy])
          · exact le_trans (h3 y hy) hc
        · intro j hj
          exact absurd hj (Nat.not_lt_zero j)

theorem find?_prefix_fails {α : Type} (p : α → Bool) :
    ∀ (l : List α) (r : α), l.find? p = some r →
      ∃ l₁ l₂, l = l₁ ++ r :: l₂ ∧ ∀ x ∈ l₁, p x = false := by
  intro l
  induction l with
  | nil => intro r h; cases h
  | cons a t ih =>
    intro r h
    by_cases ha : p a = true
    · rw [List.find?_cons_of_pos _ ha] at h
      cases h
      exact ⟨[], t, rfl, by simp⟩
    · rw [List.find?_cons_of_neg _ ha] at h
      obtain ⟨l₁, l₂, rfl, hfail⟩ := ih r h
      refine ⟨a :: l₁, l₂, rfl, ?_⟩
      intro x hx
      rcases List.mem_cons.mp hx with rfl | hx
      · exact Bool.eq_false_iff.mpr ha
      · exact hfail x hx

theorem gather_all_rows_nil_of_all_low (files : List Table)
    (h : ∀ t ∈ files, ∀ r ∈ t.rows, ¬((9 : ℚ) ≤ r.worker)) :
    gather_all_rows files = [] := by
  rw [gather_all_rows, List.flatten_eq_nil_iff]
  intro x hx
  obtain ⟨t, ht, rfl⟩ := List.mem_map.mp hx
  rw [load_candidates]
  split
  · rw [filter_by_fidelity, List.filter_eq_nil_iff]
    intro r hr
    simpa using h t ht r hr
  · rfl

/-! ### Claims -/

/-- C3: filtering is monotonic in the threshold: for `t1 ≤ t2`, every row
passing the higher threshold passes the lower one, and the candidate pool
it yields is no larger. -/
theorem claim3_filter_monotone (rows : List Row) (t1 t2 : ℚ) (h : t1 ≤ t2) :
    (∀ r ∈ filter_by_fidelity t2 rows, r ∈ filter_by_fidelity t1 rows) ∧
    (filter_by_fidelity t2 rows).length ≤ (filter_by_fidelity t1 rows).length := by
  have hsub : (filter_by_fidelity t2 rows).Sublist (filter_by_fidelity t1 rows) := by
    refine List.monotone_filter_right rows ?_
    intro r hr
    rw [decide_eq_true_eq] at hr ⊢
    exact le_trans h hr
  exact ⟨fun r hr => hsub.subset hr, hsub.length_le⟩

/-- Witness for C3 at threshold pair `(9, 10)` and two concrete rows. -/
theorem claim3_witness :
    (9 : ℚ) ≤ 10 ∧
    ((∀ r ∈ filter_by_fidelity 10 [⟨9, 1, ""⟩, ⟨10, 2, ""⟩],
        r ∈ filter_by_fidelity 9 [⟨9, 1, ""⟩, ⟨10, 2, ""⟩]) ∧
     (filter_by_fidelity 10 [⟨9, 1, ""⟩, ⟨10, 2, ""⟩]).length ≤
       (filter_by_fidelity 9 [⟨9, 1, ""⟩, ⟨10, 2, ""⟩]).length) :=
  ⟨by norm_num, claim3_filter_monotone [⟨9, 1, ""⟩, ⟨10, 2, ""⟩] 9 10 (by norm_num)⟩

/-- C6 counterexample: in the redis variant a missing required column does
not make the file contribute zero rows with a warning — `load_csv` calls
`sys.exit`, so the load itself is fatal. -/
theorem claim6_counterexample :
    load_csv ⟨false, true, true, [⟨1, CsvCell.num 1, CfgText.dict []⟩]⟩ =
      Except.error RErr.missingColumns := by
  rfl

/-- C6 as amended: in the postgres/nginx variants a file missing the
required columns contributes zero rows and leaves the rest of the run's
candidate pool unchanged (fatal only if the whole pool ends up empty),
while in the redis variant missing required columns terminate the run
immediately. -/
theorem claim6_amended :
    (∀ t : Table, ¬(t.hasWorker = true ∧ t.hasPerformance = true) →
      load_candidates t = []) ∧
    (∀ (t : Table) (files : List Table),
      ¬(t.hasWorker = true ∧ t.hasPerformance = true) →
      gather_all_rows (t :: files) = gather_all_rows files) ∧
    (∀ rt : RTable,
      ¬(rt.hasCleanConfig = true ∧ rt.hasBudget = true ∧ rt.hasReportedValue = true) →
      load_csv rt = Except.error RErr.missingColumns) := by
  refine ⟨?_, ?_, ?_⟩
  · intro t h
    rw [load_candidates, if_neg h]
  · intro t files h
    rw [gather_all_rows, List.map_cons, List.flatten_cons, load_candidates, if_neg h]
    rfl
  · intro rt h
    rw [load_csv, if_neg h]

/-- Witness for C6 at a table missing `Worker` and a redis table missing
`Budget`. -/
theorem claim6_witness :
    load_candidates ⟨false, true, [⟨1, 2, "c"⟩]⟩ = [] ∧
    load_csv ⟨true, false, true, []⟩ = Except.error RErr.missingColumns :=
  ⟨claim6_amended.1 ⟨false, true, [⟨1, 2, "c"⟩]⟩ (by simp),
   claim6_amended.2.2 ⟨true, false, true, []⟩ (by simp)⟩

/-- C7: with zero input files both variants exit fatally before writing
anything, and with input files whose rows all fail the fidelity filter
both variants exit fatally on the empty pool; in the model, outputs exist
only on the `Except.ok` branch, so an error result writes no files. -/
theorem claim7_empty_runs_fatal :
    (pgMain [] = Except.error PgErr.noFiles ∧
     nginxMain [] = Except.error PgErr.noFiles) ∧
    (∀ files : List Table, files ≠ [] →
      (∀ t ∈ files, ∀ r ∈ t.rows, ¬((9 : ℚ) ≤ r.worker)) →
      pgMain files = Except.error PgErr.emptyPool ∧
      nginxMain files = Except.error PgErr.emptyPool) := by
  refine ⟨⟨rfl, rfl⟩, ?_⟩
  intro files hne hlow
  have hpool : gather_all_rows files = [] := gather_all_rows_nil_of_all_low files hlow
  obtain ⟨f0, fs, rfl⟩ := List.exists_cons_of_ne_nil hne
  have hmax : argmaxFirst (fun r => r.performance) (gather_all_rows (f0 :: fs)) = none := by
    rw [hpool, argmaxFirst]
  constructor
  · rw [pgMain]
    rw [hmax]
  · rw [nginxMain]
    rw [hmax]

/-- Witness for C7 at one input table whose single row has fidelity 3. -/
theorem claim7_witness :
    pgMain [⟨true, true, [⟨3, 5, "c"⟩]⟩] = Except.error PgErr.emptyPool ∧
    nginxMain [⟨true, true, [⟨3, 5, "c"⟩]⟩] = Except.error PgErr.emptyPool :=
  claim7_empty_runs_fatal.2 [⟨true, true, [⟨3, 5, "c"⟩]⟩] (by simp) (by decide)

/-- C9 counterexample: on a 12-line file the loader keeps line 0 as the
header and skips lines 1–10, while the claimed reading (skip a 10-line
preamble before the header) would take line 10 as the header; the two
disagree. -/
theorem claim9_counterexample :
    read_csv_skiprows_1_to_10
        [["Worker"], ["p1"], ["p2"], ["p3"], ["p4"], ["p5"], ["p6"], ["p7"],
         ["p8"], ["p9"], ["p10"], ["d"]] =
      some (["Worker"], [["d"]]) ∧
    read_csv_skip_preamble_spec
        [["Worker"], ["p1"], ["p2"], ["p3"], ["p4"], ["p5"], ["p6"], ["p7"],
         ["p8"], ["p9"], ["p10"], ["d"]] =
      some (["p10"], [["d"]]) ∧
    read_csv_skiprows_1_to_10
        [["Worker"], ["p1"], ["p2"], ["p3"], ["p4"], ["p5"], ["p6"], ["p7"],
         ["p8"], ["p9"], ["p10"], ["d"]] ≠
      read_csv_skip_preamble_spec
        [["Worker"], ["p1"], ["p2"], ["p3"], ["p4"], ["p5"], ["p6"], ["p7"],
         ["p8"], ["p9"], ["p10"], ["d"]] := by
  refine ⟨rfl, rfl, ?_⟩
  decide

/-- C9 as amended: on every non-empty input file the loader used by both
variants reads the header from line 0 and takes as data exactly the lines
with index at least 11 — a constant-size skip of the 10 rows that follow
the header, applied by the same `skiprows=range(1, 11)` call on every
file. -/
theorem claim9_amended :
    ∀ (lines : List (List String)) (hd : List String) (data : List (List String)),
      read_csv_skiprows_1_to_10 lines = some (hd, data) →
      lines.get? 0 = some hd ∧ data = lines.drop 11 := by
  intro lines hd data h
  cases lines with
  | nil => cases h
  | cons h0 rest =>
    rw [read_csv_skiprows_1_to_10] at h
    obtain ⟨rfl, rfl⟩ := Prod.mk.injEq .. ▸ Option.some.inj h
    exact ⟨rfl, rfl⟩

/-- Witness for C9 at a two-line file. -/
theorem claim9_witness :
    ([["W"], ["x"]] : List (List String)).get? 0 = some ["W"] ∧
    ([] : List (List String)) = [["W"], ["x"]].drop 11 :=
  claim9_amended [["W"], ["x"]] ["W"] [] rfl

theorem gather_all_rows_eq_filter (files : List Table)
    (h : ∀ t ∈ files, t.hasWorker = true ∧ t.hasPerformance = true) :
    gather_all_rows files = filter_by_fidelity 9 (files.map Table.rows).flatten := by
  induction files with
  | nil => rfl
  | cons f fs ih =>
    have hf := h f (List.mem_cons_self f fs)
    have hfs := ih (fun t ht => h t (List.mem_cons_of_mem f ht))
    simp only [gather_all_rows, List.map_cons, List.flatten_cons] at hfs ⊢
    rw [filter_by_fidelity, List.filter_append, load_candidates, if_pos hf, hfs,
      filter_by_fidelity, filter_by_fidelity]

/-- C1: the row the postgres/nginx selection step picks (the `idxmax` over
the concatenated pool) is the first row of the pool attaining the maximum
`Performance`; its performance bounds every pool row, every earlier row is
strictly worse (so exact ties go to the first occurrence with no secondary
key), and when every file has the required columns the pool is exactly the
rows with fidelity ≥ 9 of all files in concatenation order. -/
theorem claim1_selected_first_max (files : List Table) (best : Row)
    (h : argmaxFirst (fun r => r.performance) (gather_all_rows files) = some best) :
    (∃ i, (gather_all_rows files).get? i = some best ∧
      ∀ j, j < i → ∀ y, (gather_all_rows files).get? j = some y →
        y.performance < best.performance) ∧
    (∀ y ∈ gather_all_rows files, y.performance ≤ best.performance) ∧
    ((∀ t ∈ files, t.hasWorker = true ∧ t.hasPerformance = true) →
      gather_all_rows files = filter_by_fidelity 9 (files.map Table.rows).flatten) := by
  have hne : gather_all_rows files ≠ [] := by
    intro hnil
    rw [hnil, argmaxFirst] at h
    cases h
  obtain ⟨r, i, h1, h2, h3, h4⟩ := argmaxFirst_spec (fun r => r.performance) _ hne
  have hrb : r = best := Option.some.inj (h1.symm.trans h)
  subst hrb
  exact ⟨⟨i, h2, h4⟩, h3, gather_all_rows_eq_filter files⟩

/-- Witness for C1 at the spec's worked example: two one-row tables with
performances 120 and 150; the argmax selects the 150 row. -/
theorem claim1_witness :
    (∃ i,
      (gather_all_rows
          [⟨true, true, [⟨9, 120, renderPyDict [("a", SqScalar.int 1)]⟩]⟩,
           ⟨true, true, [⟨10, 150, renderPyDict [("a", SqScalar.int 2)]⟩]⟩]).get? i =
        some ⟨10, 150, renderPyDict [("a", SqScalar.int 2)]⟩ ∧
      ∀ j, j < i → ∀ y,
        (gather_all_rows
            [⟨true, true, [⟨9, 120, renderPyDict [("a", SqScalar.int 1)]⟩]⟩,
             ⟨true, true, [⟨10, 150, renderPyDict [("a", SqScalar.int 2)]⟩]⟩]).get? j =
          some y → y.performance < (150 : ℚ)) ∧
    (∀ y ∈ gather_all_rows
        [⟨true, true, [⟨9, 120, renderPyDict [("a", SqScalar.int 1)]⟩]⟩,
         ⟨true, true, [⟨10, 150, renderPyDict [("a", SqScalar.int 2)]⟩]⟩],
      y.performance ≤ (150 : ℚ)) ∧
    ((∀ t ∈ [(⟨true, true, [⟨9, 120, renderPyDict [("a", SqScalar.int 1)]⟩]⟩ : Table),
             ⟨true, true, [⟨10, 150, renderPyDict [("a", SqScalar.int 2)]⟩]⟩],
        t.hasWorker = true ∧ t.hasPerformance = true) →
      gather_all_rows
          [⟨true, true, [⟨9, 120, renderPyDict [("a", SqScalar.int 1)]⟩]⟩,
           ⟨true, true, [⟨10, 150, renderPyDict [("a", SqScalar.int 2)]⟩]⟩] =
        filter_by_fidelity 9
          ([(⟨true, true, [⟨9, 120, renderPyDict [("a", SqScalar.int 1)]⟩]⟩ : Table),
            ⟨true, true, [⟨10, 150, renderPyDict [("a", SqScalar.int 2)]⟩]⟩].map
            Table.rows).flatten) :=
  claim1_selected_first_max
    [⟨true, true, [⟨9, 120, renderPyDict [("a", SqScalar.int 1)]⟩]⟩,
     ⟨true, true, [⟨10, 150, renderPyDict [("a", SqScalar.int 2)]⟩]⟩]
    ⟨10, 150, renderPyDict [("a", SqScalar.int 2)]⟩ (by decide)

theorem stripNpStr_idem (e : CExpr) : stripNpStr (stripNpStr e) = stripNpStr e := by
  cases e <;> rfl

theorem callCtor_not_whitelisted (name : String) (v : PyVal)
    (h1 : name ≠ "int") (h2 : name ≠ "float") (h3 : name ≠ "str") (h4 : name ≠ "bool") :
    callCtor name v = Except.error (EvalErr.nameError name) := by
  rw [callCtor.eq_def, if_neg h1, if_neg h2, if_neg h3, if_neg h4]

/-- C5 counterexample: the config text `{'a': str(5)}` contains a
whitelisted scalar-constructor call, but decoding it yields the string
`"5"` while decoding the unwrapped literal `{'a': 5}` yields the integer
`5`; the two structured mappings differ. -/
theorem claim5_counterexample :
    sanitize_config_str (CfgText.dict [("a", CExpr.call "str" (PyVal.int 5))]) =
      Except.ok [("a", PyVal.str "5")] ∧
    sanitize_config_str (CfgText.dict [("a", CExpr.lit (PyVal.int 5))]) =
      Except.ok [("a", PyVal.int 5)] ∧
    PyVal.str "5" ≠ PyVal.int 5 := by
  refine ⟨by rfl, by rfl, by decide⟩

/-- C5 as amended: eliminating the `np.str_` wrapper never changes the
decode result (so wrapped strings decode as the unwrapped literal would);
a whitelisted constructor applied to an argument that already has the
constructor's type returns it unchanged (for other arguments the call is
evaluated as the Python constructor, which need not equal the unwrapped
literal); and the restricted fallback resolves no name outside the fixed
`int`/`float`/`str`/`bool` whitelist — any other name raises `NameError`,
both at a single call and for the whole decode. -/
theorem claim5_amended :
    (∀ ps : List (String × CExpr),
      sanitize_config_str (CfgText.dict (ps.map (fun p => (p.1, stripNpStr p.2)))) =
        sanitize_config_str (CfgText.dict ps)) ∧
    (∀ v : PyVal, callCtor (ctorNameOf v) v = Except.ok v) ∧
    (∀ (name : String) (v : PyVal),
      name ≠ "int" → name ≠ "float" → name ≠ "str" → name ≠ "bool" →
      callCtor name v = Except.error (EvalErr.nameError name)) ∧
    (∀ (k name : String) (v : PyVal),
      name ≠ "int" → name ≠ "float" → name ≠ "str" → name ≠ "bool" →
      sanitize_config_str (CfgText.dict [(k, CExpr.call name v)]) =
        Except.error (EvalErr.nameError name)) := by
  refine ⟨?_, ?_, ?_, ?_⟩
  · intro ps
    have hcomp : ((fun p : String × CExpr => (p.1, stripNpStr p.2)) ∘
        (fun p : String × CExpr => (p.1, stripNpStr p.2))) =
        (fun p : String × CExpr => (p.1, stripNpStr p.2)) := by
      funext p
      simp [stripNpStr_idem]
    simp only [sanitize_config_str, List.map_map, hcomp]
  · intro v
    cases v <;> rfl
  · exact callCtor_not_whitelisted
  · intro k name v h1 h2 h3 h4
    simp only [sanitize_config_str, List.map_cons, List.map_nil, stripNpStr,
      literalEvalDict, litVal, restrictedEvalDict, restrictedEvalVal,
      callCtor_not_whitelisted name v h1 h2 h3 h4, Except.map]

/-- Witness for C5: the name `exec` is outside the whitelist, so both the
single call and the whole decode raise `NameError`. -/
theorem claim5_witness :
    callCtor "exec" (PyVal.str "x") = Except.error (EvalErr.nameError "exec") ∧
    sanitize_config_str (CfgText.dict [("a", CExpr.call "exec" (PyVal.str "x"))]) =
      Except.error (EvalErr.nameError "exec") :=
  ⟨claim5_amended.2.2.1 "exec" (PyVal.str "x")
      (by decide) (by decide) (by decide) (by decide),
   claim5_amended.2.2.2 "a" "exec" (PyVal.str "x")
      (by decide) (by decide) (by decide) (by decide)⟩

/-- C8 counterexample: with the selected row's config `{'a': True}` the
quote replacement leaves `True`, which `json.loads` rejects, so the strict
(postgres) run dies on the uncaught exception; the error carries no
payload, so the run does not report the raw config string in place of a
structured mapping. -/
theorem claim8_counterexample :
    pgMain [⟨true, true, [⟨9, 1, renderPyDict [("a", SqScalar.bool true)]⟩]⟩] =
      Except.error PgErr.decodeError := by
  decide

/-- C8 as amended: when the decode of the single selected row's config
fails, the strict (postgres) variant exits with a non-zero status and
reports nothing at all — no structured mapping and no raw payload — while
it is the tolerant (nginx) variant that degrades to reporting the raw
config string under `raw_config`, and it does so exiting successfully. -/
theorem claim8_amended :
    ∀ (files : List Table) (best : Row),
      argmaxFirst (fun r => r.performance) (gather_all_rows files) = some best →
      pgDecode best.config = none →
      pgMain files = Except.error PgErr.decodeError ∧
      nginxMain files =
        Except.ok ⟨writeJsonSorted [("raw_config", JVal.str best.config)],
          best.worker, best.performance⟩ := by
  intro files best h hdec
  cases files with
  | nil => simp [gather_all_rows, argmaxFirst] at h
  | cons f fs =>
    constructor
    · simp only [pgMain, h, hdec]
    · simp only [nginxMain, h, hdec]

/-- Witness for C8 at a one-row input whose config is `{'b': False}`. -/
theorem claim8_witness :
    pgMain [⟨true, true, [⟨9, 2, renderPyDict [("b", SqScalar.bool false)]⟩]⟩] =
      Except.error PgErr.decodeError ∧
    nginxMain [⟨true, true, [⟨9, 2, renderPyDict [("b", SqScalar.bool false)]⟩]⟩] =
      Except.ok ⟨writeJsonSorted
          [("raw_config", JVal.str (renderPyDict [("b", SqScalar.bool false)]))], 9, 2⟩ :=
  claim8_amended [⟨true, true, [⟨9, 2, renderPyDict [("b", SqScalar.bool false)]⟩]⟩]
    ⟨9, 2, renderPyDict [("b", SqScalar.bool false)]⟩ (by decide) (by decide)

theorem rvRank_eq_bot_iff (r : RRow) :
    rvRank r = ⊥ ↔ toNumericCoerce r.reported = none := by
  cases h : toNumericCoerce r.reported with
  | none => simp only [rvRank, h]
  | some q =>
    simp only [rvRank, h]
    exact ⟨fun hb => absurd hb (WithBot.coe_ne_bot), fun hb => by cases hb⟩

theorem fallbackPick_spec (cands : List RRow) (c0 : RRow) (q0 : ℚ)
    (hc0 : c0 ∈ cands) (hq0 : toNumericCoerce c0.reported = some q0) :
    ∃ r qr, fallbackPick cands = Except.ok r ∧ r ∈ cands ∧
      toNumericCoerce r.reported = some qr ∧
      ∀ c ∈ cands, ∀ q, toNumericCoerce c.reported = some q → |q| ≤ |qr| := by
  set P := cands.filterMap
      (fun r => (toNumericCoerce r.reported).map (fun q => (r, |q|))) with hP
  have hmem : (c0, |q0|) ∈ P := by
    rw [hP, List.mem_filterMap]
    exact ⟨c0, hc0, by rw [hq0]; rfl⟩
  obtain ⟨p, i, h1, h2, h3, _⟩ :=
    argmaxFirst_spec (fun p => p.2) P (List.ne_nil_of_mem hmem)
  have hpP : p ∈ P := List.get?_mem h2
  obtain ⟨r0, hr0mem, hr0eq⟩ := List.mem_filterMap.mp hpP
  cases hq : toNumericCoerce r0.reported with
  | none => rw [hq] at hr0eq; cases hr0eq
  | some q =>
    rw [hq] at hr0eq
    obtain rfl : (r0, |q|) = p := Option.some.inj hr0eq
    refine ⟨r0, q, ?_, hr0mem, hq, ?_⟩
    · rw [fallbackPick, ← hP, h1]
    · intro c hc qc hqc
      have hcP : (c, |qc|) ∈ P := by
        rw [hP, List.mem_filterMap]
        exact ⟨c, hc, by rw [hqc]; rfl⟩
      exact h3 (c, |qc|) hcP

theorem decode_walk_found (cands : List RRow) (r : RRow)
    (hfind : (decodeWalkOrder cands).find? rowDecodes = some r) :
    r ∈ cands ∧ rowDecodes r = true ∧
      ∀ c ∈ cands, rvRank r < rvRank c → rowDecodes c = false := by
  have hsorted : List.Sorted rankRel (decodeWalkOrder cands) :=
    List.sorted_insertionSort rankRel cands
  obtain ⟨l₁, l₂, hsplit, hfail⟩ := find?_prefix_fails rowDecodes _ r hfind
  have hrmem : r ∈ decodeWalkOrder cands :=
    hsplit ▸ List.mem_append_right l₁ (List.mem_cons_self r l₂)
  refine ⟨(List.perm_insertionSort rankRel cands).subset hrmem,
    List.find?_some hfind, ?_⟩
  intro c hc hlt
  have hcw : c ∈ decodeWalkOrder cands :=
    (List.perm_insertionSort rankRel cands).mem_iff.mpr hc
  rw [hsplit] at hcw hsorted
  rcases List.mem_append.mp hcw with hcl | hcr
  · exact hfail c hcl
  · exfalso
    rcases List.mem_cons.mp hcr with rfl | hcl₂
    · exact lt_irrefl _ hlt
    · have hpair := (List.pairwise_append.mp hsorted).2.1
      have hrel : rankRel r c := (List.pairwise_cons.mp hpair).1 c hcl₂
      exact absurd hlt (not_lt.mpr hrel)

theorem pick_best_eq (a : RRow) (t : List RRow)
    (hne : maxBudgetCandidates a t ≠ []) :
    pick_best (a :: t) =
      match (decodeWalkOrder (maxBudgetCandidates a t)).find? rowDecodes with
      | some r => Except.ok r
      | none => fallbackPick (maxBudgetCandidates a t) := by
  obtain ⟨c1, cs, h⟩ := List.exists_cons_of_ne_nil hne
  simp only [pick_best]
  rw [h]

/-- C2 counterexample: with a single max-budget row whose config fails
both decode attempts, `pick_best` does return the best-by-magnitude row,
but `main` then re-runs `sanitize_config_str` on it outside any handler —
the run dies on the uncaught exception instead of surfacing the raw
payload as a result. -/
theorem claim2_counterexample :
    pick_best [⟨1, CsvCell.num 5, CfgText.malformed "junk"⟩] =
      Except.ok ⟨1, CsvCell.num 5, CfgText.malformed "junk"⟩ ∧
    redisMain ⟨true, true, true, [⟨1, CsvCell.num 5, CfgText.malformed "junk"⟩]⟩ =
      Except.error (RErr.uncaughtEvalError EvalErr.syntaxError) :=
  ⟨by decide, by decide⟩

/-- C2 as amended: the pool is exactly the rows at the maximum `Budget`;
if some candidate decodes, `pick_best` returns a decodable candidate such
that every strictly-larger-magnitude candidate is non-decodable (the
decode walk in descending order of absolute reported value); if no
candidate decodes, `pick_best` falls back to the largest-magnitude
numerically-valued row regardless of decodability — and the run then dies
on the uncaught decoding error raised when `main` re-decodes that row,
rather than surfacing a raw payload. -/
theorem claim2_amended (a : RRow) (t : List RRow) :
    (∀ c, c ∈ maxBudgetCandidates a t ↔
      c ∈ a :: t ∧ c.budget = (t.map (fun r => r.budget)).foldl max a.budget) ∧
    ((∃ c ∈ maxBudgetCandidates a t, rowDecodes c = true) →
      ∃ r, pick_best (a :: t) = Except.ok r ∧ r ∈ maxBudgetCandidates a t ∧
        rowDecodes r = true ∧
        ∀ c ∈ maxBudgetCandidates a t, rvRank r < rvRank c → rowDecodes c = false) ∧
    ((∀ c ∈ maxBudgetCandidates a t, rowDecodes c = false) →
      ∀ c0 ∈ maxBudgetCandidates a t, ∀ q0, toNumericCoerce c0.reported = some q0 →
      ∃ r qr e, pick_best (a :: t) = Except.ok r ∧ r ∈ maxBudgetCandidates a t ∧
        toNumericCoerce r.reported = some qr ∧
        (∀ c ∈ maxBudgetCandidates a t, ∀ q,
          toNumericCoerce c.reported = some q → |q| ≤ |qr|) ∧
        sanitize_config_str r.cleanConfig = Except.error e ∧
        ∀ rt : RTable, rt.hasCleanConfig = true → rt.hasBudget = true →
          rt.hasReportedValue = true → rt.rows = a :: t →
          redisMain rt = Except.error (RErr.uncaughtEvalError e)) := by
  refine ⟨?_, ?_, ?_⟩
  · intro c
    simp [maxBudgetCandidates, List.mem_filter]
  · rintro ⟨c, hc, hcd⟩
    have hne : maxBudgetCandidates a t ≠ [] := List.ne_nil_of_mem hc
    have hcw : c ∈ decodeWalkOrder (maxBudgetCandidates a t) :=
      (List.perm_insertionSort rankRel _).mem_iff.mpr hc
    obtain ⟨r, hfind⟩ := Option.isSome_iff_exists.mp
      (List.find?_isSome.mpr ⟨c, hcw, hcd⟩)
    have hprops := decode_walk_found (maxBudgetCandidates a t) r hfind
    refine ⟨r, ?_, hprops.1, hprops.2.1, hprops.2.2⟩
    rw [pick_best_eq a t hne, hfind]
  · intro hall c0 hc0 q0 hq0
    have hne : maxBudgetCandidates a t ≠ [] := List.ne_nil_of_mem hc0
    have hnone : (decodeWalkOrder (maxBudgetCandidates a t)).find? rowDecodes = none := by
      rw [List.find?_eq_none]
      intro x hx
      have hxc : x ∈ maxBudgetCandidates a t :=
        (List.perm_insertionSort rankRel _).subset hx
      simp [hall x hxc]
    obtain ⟨r, qr, hfb, hrmem, hqr, hmax⟩ :=
      fallbackPick_spec (maxBudgetCandidates a t) c0 q0 hc0 hq0
    have hdec : rowDecodes r = false := hall r hrmem
    obtain ⟨e, he⟩ : ∃ e, sanitize_config_str r.cleanConfig = Except.error e := by
      cases hs : sanitize_config_str r.cleanConfig with
      | error e => exact ⟨e, rfl⟩
      | ok v => rw [rowDecodes, hs] at hdec; cases hdec
    have hpick : pick_best (a :: t) = Except.ok r := by
      rw [pick_best_eq a t hne, hnone]
      exact hfb
    refine ⟨r, qr, e, hpick, hrmem, hqr, hmax, he, ?_⟩
    intro rt h1c h2c h3c hrows
    have hl : load_csv rt = Except.ok (a :: t) := by
      rw [load_csv, if_pos ⟨h1c, h2c, h3c⟩, hrows]
    simp only [redisMain, hl, hpick, he]

/-- Witness for C2: a two-row max-budget pool where the larger-magnitude
row is non-decodable and the smaller decodable one is picked. -/
theorem claim2_witness :
    ∃ r, pick_best
        [⟨2, CsvCell.num (-9), CfgText.malformed "u"⟩,
         ⟨2, CsvCell.num 3, CfgText.dict [("c", CExpr.lit (PyVal.int 3))]⟩] =
      Except.ok r ∧
    r ∈ maxBudgetCandidates ⟨2, CsvCell.num (-9), CfgText.malformed "u"⟩
        [⟨2, CsvCell.num 3, CfgText.dict [("c", CExpr.lit (PyVal.int 3))]⟩] ∧
    rowDecodes r = true ∧
    ∀ c ∈ maxBudgetCandidates ⟨2, CsvCell.num (-9), CfgText.malformed "u"⟩
        [⟨2, CsvCell.num 3, CfgText.dict [("c", CExpr.lit (PyVal.int 3))]⟩],
      rvRank r < rvRank c → rowDecodes c = false :=
  (claim2_amended ⟨2, CsvCell.num (-9), CfgText.malformed "u"⟩
      [⟨2, CsvCell.num 3, CfgText.dict [("c", CExpr.lit (PyVal.int 3))]⟩]).2.1
    ⟨⟨2, CsvCell.num 3, CfgText.dict [("c", CExpr.lit (PyVal.int 3))]⟩,
      by decide, by decide⟩

/-- C10: in the decode walk the NaN-valued candidates (those whose
`Reported Value` fails numeric coercion) occupy a suffix — every such row
is visited after all numerically-valued ones — and the `idxmax` fallback
returns a numerically-valued row whenever one exists. -/
theorem claim10_nan_rows :
    (∀ (cands : List RRow) (i j : Fin (decodeWalkOrder cands).length), i < j →
      toNumericCoerce ((decodeWalkOrder cands).get i).reported = none →
      toNumericCoerce ((decodeWalkOrder cands).get j).reported = none) ∧
    (∀ cands : List RRow, ∀ c0 ∈ cands, ∀ q0, toNumericCoerce c0.reported = some q0 →
      ∃ r qr, fallbackPick cands = Except.ok r ∧ r ∈ cands ∧
        toNumericCoerce r.reported = some qr) := by
  constructor
  · intro cands i j hij hi
    have hsorted : List.Sorted rankRel (decodeWalkOrder cands) :=
      List.sorted_insertionSort rankRel cands
    have hrel : rankRel ((decodeWalkOrder cands).get i) ((decodeWalkOrder cands).get j) :=
      hsorted.rel_get_of_lt hij
    have hbot : rvRank ((decodeWalkOrder cands).get i) = ⊥ :=
      (rvRank_eq_bot_iff _).mpr hi
    have hbotj : rvRank ((decodeWalkOrder cands).get j) = ⊥ :=
      le_bot_iff.mp (hbot ▸ hrel)
    exact (rvRank_eq_bot_iff _).mp hbotj
  · intro cands c0 hc0 q0 hq0
    obtain ⟨r, qr, h1, h2, h3, _⟩ := fallbackPick_spec cands c0 q0 hc0 hq0
    exact ⟨r, qr, h1, h2, h3⟩

/-- Witness for C10: in a two-row pool with one NaN row the walk puts the
NaN row second, and on a numeric singleton the fallback returns it. -/
theorem claim10_witness :
    toNumericCoerce
        ((decodeWalkOrder [⟨1, CsvCell.text "x", CfgText.malformed "m"⟩,
            ⟨1, CsvCell.text "y", CfgText.malformed "n"⟩]).get
          ⟨1, by decide⟩).reported = none ∧
    ∃ r qr, fallbackPick [⟨1, CsvCell.num 3, CfgText.malformed "m"⟩] = Except.ok r ∧
      r ∈ [⟨1, CsvCell.num 3, CfgText.malformed "m"⟩] ∧
      toNumericCoerce r.reported = some qr :=
  ⟨claim10_nan_rows.1
      [⟨1, CsvCell.text "x", CfgText.malformed "m"⟩,
       ⟨1, CsvCell.text "y", CfgText.malformed "n"⟩]
      ⟨0, by decide⟩ ⟨1, by decide⟩ (by decide) (by decide),
   claim10_nan_rows.2 [⟨1, CsvCell.num 3, CfgText.malformed "m"⟩]
      ⟨1, CsvCell.num 3, CfgText.malformed "m"⟩ (by decide) 3 (by decide)⟩

theorem map_quoteSwap_eq_self (l : List Char) (h : ∀ c ∈ l, c ≠ sqChar) :
    l.map quoteSwap = l := by
  induction l with
  | nil => rfl
  | cons c cs ih =>
    rw [List.map_cons, ih (fun x hx => h x (List.mem_cons_of_mem c hx)),
      quoteSwap, if_neg (h c (List.mem_cons_self c cs))]

theorem skipWs_cons_of_ne (c : Char) (cs : List Char) (h : c ≠ ' ') :
    skipWs (c :: cs) = c :: cs := by
  rw [skipWs, if_neg h]

theorem skipWs_cons_space (cs : List Char) : skipWs (' ' :: cs) = skipWs cs := by
  rw [skipWs, if_pos rfl]

theorem parseStrBody_append (l rest : List Char)
    (h : ∀ c ∈ l, c ≠ dqChar ∧ c ≠ bslChar) :
    parseStrBody (l ++ dqChar :: rest) = some (l, rest) := by
  induction l with
  | nil => rw [List.nil_append, parseStrBody, if_pos rfl]
  | cons c cs ih =>
    have hc := h c (List.mem_cons_self c cs)
    rw [List.cons_append, parseStrBody, if_neg hc.1, if_neg hc.2,
      ih (fun x hx => h x (List.mem_cons_of_mem c hx))]
    rfl

theorem digit_char_facts (d : Nat) (h : d < 10) :
    isDigitChar (digitChar d) = true ∧ (digitChar d).toNat = 48 + d := by
  interval_cases d <;> exact ⟨by decide, by decide⟩

theorem digit_ne (c : Char) (h : isDigitChar c = true) :
    c ≠ sqChar ∧ c ≠ dqChar ∧ c ≠ bslChar ∧ c ≠ '-' ∧ c ≠ ' ' ∧ c ≠ ',' ∧
      c ≠ ':' ∧ c ≠ rbChar ∧ c ≠ lbChar := by
  rw [isDigitChar, decide_eq_true_eq] at h
  refine ⟨?_, ?_, ?_, ?_, ?_, ?_, ?_, ?_, ?_⟩ <;>
    · intro hc
      rw [hc] at h
      exact absurd h (by decide)

theorem parseDigits_append (acc : Nat) (ds rest : List Char)
    (hds : ∀ c ∈ ds, isDigitChar c = true)
    (hrest : ∀ c r, rest = c :: r → isDigitChar c = false) :
    parseDigits acc (ds ++ rest) = (digitsVal acc ds, rest) := by
  induction ds generalizing acc with
  | nil =>
    rw [List.nil_append, digitsVal, List.foldl_nil]
    cases rest with
    | nil => rfl
    | cons c r => simp [parseDigits, hrest c r rfl]
  | cons c cs ih =>
    have hc := hds c (List.mem_cons_self c cs)
    rw [List.cons_append, parseDigits, if_pos hc,
      ih _ (fun x hx => hds x (List.mem_cons_of_mem c hx))]
    rfl

theorem natDigitsAux_spec (fuel : Nat) : ∀ n, n < fuel →
    (∀ c ∈ natDigitsAux fuel n, isDigitChar c = true) ∧
    natDigitsAux fuel n ≠ [] ∧
    ∀ acc, digitsVal acc (natDigitsAux fuel n) =
      acc * 10 ^ (natDigitsAux fuel n).length + n := by
  induction fuel with
  | zero => intro n h; exact absurd h (Nat.not_lt_zero n)
  | succ fuel ih =>
    intro n hn
    by_cases h10 : n < 10
    · rw [natDigitsAux, if_pos h10]
      refine ⟨?_, List.cons_ne_nil _ _, ?_⟩
      · intro c hc
        rw [List.mem_singleton] at hc
        subst hc
        exact (digit_char_facts n h10).1
      · intro acc
        rw [digitsVal, List.foldl_cons, List.foldl_nil, (digit_char_facts n h10).2]
        simp
    · have hge : 10 ≤ n := not_lt.mp h10
      have hdiv : n / 10 < fuel :=
        lt_of_lt_of_le (Nat.div_lt_self (by omega) (by omega)) (Nat.lt_succ_iff.mp hn)
      obtain ⟨ihd, ihne, ihval⟩ := ih (n / 10) hdiv
      have hmod : n % 10 < 10 := Nat.mod_lt n (by omega)
      rw [natDigitsAux, if_neg h10]
      refine ⟨?_, ?_, ?_⟩
      · intro c hc
        rcases List.mem_append.mp hc with hc | hc
        · exact ihd c hc
        · rw [List.mem_singleton] at hc
          subst hc
          exact (digit_char_facts _ hmod).1
      · intro hnil
        exact ihne (List.append_eq_nil.mp hnil).1
      · intro acc
        rw [digitsVal, List.foldl_append, List.foldl_cons, List.foldl_nil]
        have hfold : (natDigitsAux fuel (n / 10)).foldl
            (fun a c => a * 10 + (c.toNat - 48)) acc =
            acc * 10 ^ (natDigitsAux fuel (n / 10)).length + n / 10 := ihval acc
        rw [hfold, (digit_char_facts _ hmod).2, List.length_append,
          List.length_singleton]
        have hdm : 10 * (n / 10) + n % 10 = n := Nat.div_add_mod n 10
        have hsub : 48 + n % 10 - 48 = n % 10 := by omega
        rw [hsub]
        have hring : (acc * 10 ^ (natDigitsAux fuel (n / 10)).length + n / 10) * 10 +
            n % 10 =
            acc * 10 ^ ((natDigitsAux fuel (n / 10)).length + 1) +
              (10 * (n / 10) + n % 10) := by
          ring
        rw [hring, hdm]

theorem natDigits_spec (n : Nat) :
    (∀ c ∈ natDigits n, isDigitChar c = true) ∧ natDigits n ≠ [] ∧
    digitsVal 0 (natDigits n) = n := by
  obtain ⟨h1, h2, h3⟩ := natDigitsAux_spec (n + 1) n (Nat.lt_succ_self n)
  refine ⟨h1, h2, ?_⟩
  have := h3 0
  simpa using this

theorem parseDigits_natDigits (n : Nat) (rest : List Char)
    (hrest : ∀ c r, rest = c :: r → isDigitChar c = false) :
    parseDigits 0 (natDigits n ++ rest) = (n, rest) := by
  rw [parseDigits_append 0 _ rest (natDigits_spec n).1 hrest, (natDigits_spec n).2.2]

theorem intChars_no_sq (n : Int) : ∀ c ∈ intChars n, c ≠ sqChar := by
  intro c hc
  rw [intChars] at hc
  by_cases hn : n < 0
  · rw [if_pos hn] at hc
    rcases List.mem_cons.mp hc with rfl | hc
    · decide
    · exact (digit_ne c ((natDigits_spec n.natAbs).1 c hc)).1
  · rw [if_neg hn] at hc
    exact (digit_ne c ((natDigits_spec n.natAbs).1 c hc)).1

theorem parseJVal_intChars (n : Int) (rest : List Char)
    (hrest : ∀ c r, rest = c :: r → isDigitChar c = false) :
    parseJVal (intChars n ++ rest) = some (JVal.int n, rest) := by
  obtain ⟨d, ds, hd⟩ := List.exists_cons_of_ne_nil (natDigits_spec n.natAbs).2.1
  have hddig : isDigitChar d = true :=
    (natDigits_spec n.natAbs).1 d (by rw [hd]; exact List.mem_cons_self d ds)
  have hdne := digit_ne d hddig
  have hpd : parseDigits 0 (d :: (ds ++ rest)) = (n.natAbs, rest) := by
    rw [← List.cons_append, ← hd]
    exact parseDigits_natDigits n.natAbs rest hrest
  by_cases hn : n < 0
  · rw [intChars, if_pos hn, List.cons_append, parseJVal,
      if_neg (by decide : ¬(('-' : Char) = dqChar)), if_pos rfl, hd,
      List.cons_append, List.head?_cons]
    simp only [Option.map_some', Option.getD_some]
    rw [if_pos hddig]
    simp only [hpd]
    rw [show -((n.natAbs : Int)) = n by omega]
  · rw [intChars, if_neg hn, hd, List.cons_append, parseJVal,
      if_neg hdne.2.1, if_neg hdne.2.2.2.1, if_pos hddig]
    simp only [hpd]
    rw [show ((n.natAbs : Int)) = n from Int.natAbs_of_nonneg (not_lt.mp hn)]

theorem parseJVal_scalar (v : SqScalar) (rest : List Char) (hv : goodVal v)
    (hrest : ∀ c r, rest = c :: r → isDigitChar c = false) :
    parseJVal ((renderScalar v).map quoteSwap ++ rest) = some (jOfScalar v, rest) := by
  cases v with
  | int n =>
    have hmap : (intChars n).map quoteSwap = intChars n :=
      map_quoteSwap_eq_self _ (intChars_no_sq n)
    show parseJVal ((intChars n).map quoteSwap ++ rest) = some (JVal.int n, rest)
    rw [hmap]
    exact parseJVal_intChars n rest hrest
  | str s =>
    have hsq : quoteSwap sqChar = dqChar := by rw [quoteSwap, if_pos rfl]
    have hmap : s.data.map quoteSwap = s.data :=
      map_quoteSwap_eq_self _ (fun c hc => (hv c hc).1)
    show parseJVal ((sqChar :: s.data ++ [sqChar]).map quoteSwap ++ rest) =
      some (JVal.str s, rest)
    simp only [List.map_cons, List.map_append, List.map_nil, hsq, hmap,
      List.cons_append, List.append_assoc, List.singleton_append, List.nil_append]
    rw [parseJVal, if_pos rfl,
      parseStrBody_append s.data rest (fun c hc => ⟨(hv c hc).2.1, (hv c hc).2.2⟩)]
    rfl
  | bool b => exact hv.elim

theorem skipWs_renderScalar (v : SqScalar) (hv : goodVal v) (rest : List Char) :
    skipWs ((renderScalar v).map quoteSwap ++ rest) =
      (renderScalar v).map quoteSwap ++ rest := by
  cases v with
  | int n =>
    have hmap : (intChars n).map quoteSwap = intChars n :=
      map_quoteSwap_eq_self _ (intChars_no_sq n)
    show skipWs ((intChars n).map quoteSwap ++ rest) = (intChars n).map quoteSwap ++ rest
    rw [hmap, intChars]
    by_cases hn : n < 0
    · rw [if_pos hn, List.cons_append, skipWs_cons_of_ne _ _ (by decide)]
    · rw [if_neg hn]
      obtain ⟨d, ds, hd⟩ := List.exists_cons_of_ne_nil (natDigits_spec n.natAbs).2.1
      have hddig : isDigitChar d = true :=
        (natDigits_spec n.natAbs).1 d (by rw [hd]; exact List.mem_cons_self d ds)
      rw [hd, List.cons_append, skipWs_cons_of_ne _ _ (digit_ne d hddig).2.2.2.2.1]
  | str s =>
    have hsq : quoteSwap sqChar = dqChar := by rw [quoteSwap, if_pos rfl]
    simp only [renderScalar, List.map_cons, List.map_append, List.map_nil, hsq,
      List.cons_append, List.nil_append]
    rw [skipWs_cons_of_ne _ _ (by decide)]
  | bool b => exact hv.elim

theorem pairChars_map (k : String) (v : SqScalar) (hk : goodStr k) :
    (pairChars k v).map quoteSwap =
      dqChar :: (k.data ++ dqChar :: ':' :: ' ' :: (renderScalar v).map quoteSwap) := by
  have hsq : quoteSwap sqChar = dqChar := by rw [quoteSwap, if_pos rfl]
  have hcolon : quoteSwap ':' = ':' := by rw [quoteSwap, if_neg (by decide)]
  have hspace : quoteSwap ' ' = ' ' := by rw [quoteSwap, if_neg (by decide)]
  have hmap : k.data.map quoteSwap = k.data :=
    map_quoteSwap_eq_self _ (fun c hc => (hk c hc).1)
  rw [pairChars]
  simp only [List.map_cons, List.map_append, hsq, hcolon, hspace, hmap,
    List.cons_append]

theorem parsePairsAux_cons_space (fuel : Nat) (cs : List Char) :
    parsePairsAux fuel (' ' :: cs) = parsePairsAux fuel cs := by
  cases fuel with
  | zero => rfl
  | succ f => rw [parsePairsAux, parsePairsAux, skipWs_cons_space]

theorem parsePairsAux_pair (f : Nat) (k : String) (v : SqScalar) (tail : List Char)
    (hk : goodStr k) (hv : goodVal v)
    (c0 : Char) (r0 : List Char) (htail : tail = c0 :: r0)
    (hc0d : isDigitChar c0 = false) :
    parsePairsAux (f + 1) ((pairChars k v).map quoteSwap ++ tail) =
      (match skipWs tail with
       | [] => none
       | c3 :: cs5 =>
         if c3 = ',' then
           match parsePairsAux f cs5 with
           | none => none
           | some (ps, rest) => some ((k, jOfScalar v) :: ps, rest)
         else if c3 = rbChar then some ([(k, jOfScalar v)], cs5)
         else none) := by
  have hrest : ∀ c r, tail = c :: r → isDigitChar c = false := by
    intro c r h
    rw [htail] at h
    cases h
    exact hc0d
  rw [pairChars_map k v hk, List.cons_append, List.append_assoc]
  simp only [List.cons_append]
  rw [parsePairsAux, skipWs_cons_of_ne _ _ (by decide)]
  simp only [if_true]
  rw [parseStrBody_append k.data _ (fun c hc => ⟨(hk c hc).2.1, (hk c hc).2.2⟩)]
  simp only []
  rw [skipWs_cons_of_ne _ _ (by decide)]
  simp only [if_true]
  rw [skipWs_cons_space, skipWs_renderScalar v hv tail,
    parseJVal_scalar v tail hv hrest]

theorem parsePairsAux_render :
    ∀ (d : List (String × SqScalar)) (rest : List Char) (fuel : Nat), d ≠ [] →
      (∀ p ∈ d, goodPair p) → d.length ≤ fuel →
      parsePairsAux fuel ((joinPairs d).map quoteSwap ++ rbChar :: rest) =
        some (d.map (fun p => (p.1, jOfScalar p.2)), rest) := by
  intro d
  induction d with
  | nil => intro rest fuel hne; exact absurd rfl hne
  | cons p t ih =>
    intro rest fuel _ hgood hfuel
    obtain ⟨f, rfl⟩ : ∃ f, fuel = f + 1 :=
      ⟨fuel - 1, by simp only [List.length_cons] at hfuel; omega⟩
    have hp := hgood p (List.mem_cons_self p t)
    cases t with
    | nil =>
      rw [show joinPairs [p] = pairChars p.1 p.2 from rfl,
        parsePairsAux_pair f p.1 p.2 (rbChar :: rest) hp.1 hp.2 rbChar rest rfl
          (by decide),
        skipWs_cons_of_ne _ _ (by decide)]
      simp only [if_true]
      rfl
    | cons q t' =>
      have hcomma : quoteSwap ',' = ',' := by rw [quoteSwap, if_neg (by decide)]
      have hspace : quoteSwap ' ' = ' ' := by rw [quoteSwap, if_neg (by decide)]
      rw [show joinPairs (p :: q :: t') =
        pairChars p.1 p.2 ++ ',' :: ' ' :: joinPairs (q :: t') from rfl,
        List.map_append]
      simp only [List.map_cons, hcomma, hspace]
      rw [List.append_assoc]
      simp only [List.cons_append]
      rw [parsePairsAux_pair f p.1 p.2
          (',' :: ' ' :: ((joinPairs (q :: t')).map quoteSwap ++ rbChar :: rest))
          hp.1 hp.2 ',' _ rfl (by decide),
        skipWs_cons_of_ne _ _ (by decide)]
      simp only [if_true]
      rw [parsePairsAux_cons_space,
        ih rest f (List.cons_ne_nil q t')
          (fun x hx => hgood x (List.mem_cons_of_mem p hx))
          (by simp only [List.length_cons] at hfuel ⊢; omega)]
      rfl

theorem joinPairs_length_ge (d : List (String × SqScalar)) :
    d.length ≤ (joinPairs d).length := by
  induction d with
  | nil => simp [joinPairs]
  | cons p t ih =>
    have h1 : 1 ≤ (pairChars p.1 p.2).length := by
      rw [pairChars]
      simp
    cases t with
    | nil =>
      rw [show joinPairs [p] = pairChars p.1 p.2 from rfl]
      simpa using h1
    | cons q t' =>
      rw [show joinPairs (p :: q :: t') =
        pairChars p.1 p.2 ++ ',' :: ' ' :: joinPairs (q :: t') from rfl]
      simp only [List.length_append, List.length_cons] at ih ⊢
      omega

theorem joinPairs_map_head (p : String × SqScalar) (t : List (String × SqScalar))
    (hk : goodStr p.1) :
    ∃ X, (joinPairs (p :: t)).map quoteSwap = dqChar :: X := by
  cases t with
  | nil =>
    refine ⟨p.1.data ++ dqChar :: ':' :: ' ' :: (renderScalar p.2).map quoteSwap, ?_⟩
    rw [show joinPairs [p] = pairChars p.1 p.2 from rfl, pairChars_map p.1 p.2 hk]
  | cons q t' =>
    refine ⟨(p.1.data ++ dqChar :: ':' :: ' ' :: (renderScalar p.2).map quoteSwap) ++
      (',' :: ' ' :: joinPairs (q :: t')).map quoteSwap, ?_⟩
    rw [show joinPairs (p :: q :: t') =
      pairChars p.1 p.2 ++ ',' :: ' ' :: joinPairs (q :: t') from rfl,
      List.map_append, pairChars_map p.1 p.2 hk, List.cons_append]

/-- C4 counterexample: the single-quoted dict text `{'k': '"'}` is a
well-formed single-quoted Python dict (the rendering of the one-entry
dict whose value is the one-character string `"`), yet the decode step
fails outright — the quote replacement turns the value into `"""`, which
`json.loads` rejects — so no mapping with the denoted key set and values
is produced. -/
theorem claim4_counterexample :
    pgDecode (renderPyDict [("k", SqScalar.str (String.mk [dqChar]))]) = none := by
  decide

/-- C4 as amended: the round trip holds on the fragment that survives the
quote-replacement decode — dict texts whose keys and string values
contain no quote or backslash characters and whose values are integers or
strings (Python booleans render as `True`/`False`, which JSON rejects):
decoding the rendered text yields exactly the denoted mapping, and the
key-sorted re-encoding is a permutation of it (same key set, equal
values). -/
theorem claim4_amended (d : List (String × SqScalar)) (hgood : ∀ p ∈ d, goodPair p) :
    pgDecode (renderPyDict d) = some (d.map (fun p => (p.1, jOfScalar p.2))) ∧
    ∀ x, x ∈ writeJsonSorted (d.map (fun p => (p.1, jOfScalar p.2))) ↔
      x ∈ d.map (fun p => (p.1, jOfScalar p.2)) := by
  refine ⟨?_, fun x => (List.perm_insertionSort keyLe _).mem_iff⟩
  have hlb : quoteSwap lbChar = lbChar := by rw [quoteSwap, if_neg (by decide)]
  have hrb : quoteSwap rbChar = rbChar := by rw [quoteSwap, if_neg (by decide)]
  show jsonParseChars ((lbChar :: (joinPairs d ++ [rbChar])).map quoteSwap) = _
  simp only [List.map_cons, List.map_append, List.map_nil, hlb, hrb]
  cases d with
  | nil => decide
  | cons p t =>
    rw [jsonParseChars, skipWs_cons_of_ne _ _ (by decide)]
    simp only [if_true]
    obtain ⟨X, hX⟩ := joinPairs_map_head p t (hgood p (List.mem_cons_self p t)).1
    rw [hX, List.cons_append, skipWs_cons_of_ne _ _ (by decide)]
    simp only []
    rw [if_neg (by decide : ¬(dqChar = rbChar)), ← List.cons_append, ← hX]
    have hfuel : (p :: t).length ≤
        ((joinPairs (p :: t)).map quoteSwap ++ [rbChar]).length + 1 := by
      rw [List.length_append, List.length_map]
      have := joinPairs_length_ge (p :: t)
      simp only [List.length_singleton]
      omega
    rw [parsePairsAux_render (p :: t) [] _ (List.cons_ne_nil p t) hgood hfuel]
    simp [skipWs]

/-- Witness for C4 at the two-entry dict `{'a': 2, 'b': 'xy'}`. -/
theorem claim4_witness :
    pgDecode (renderPyDict [("a", SqScalar.int 2), ("b", SqScalar.str "xy")]) =
      some [("a", JVal.int 2), ("b", JVal.str "xy")] ∧
    ∀ x, x ∈ writeJsonSorted
        ([("a", SqScalar.int 2), ("b", SqScalar.str "xy")].map
          (fun p => (p.1, jOfScalar p.2))) ↔
      x ∈ [("a", SqScalar.int 2), ("b", SqScalar.str "xy")].map
        (fun p => (p.1, jOfScalar p.2)) :=
  claim4_amended [("a", SqScalar.int 2), ("b", SqScalar.str "xy")] (by decide)
